import Mathlib

/-!
Verification of the sww post-processing utilities
(`source/anuga/utilities/plot_utils.py`).

The embedding models the numeric arrays of the Python/numpy code as lists of
rationals (`List ℚ` for 1-D arrays, `List (List ℚ)` for time × space arrays);
the float literals `1.0e-06` and the default `1.0e-03` become the exact
rationals `1/1000000` and `1/1000`.  Fallible operations (NetCDF variable
lookup, numpy indexing and broadcasting, Python division by zero, failed
`assert`) are modelled in `Except Err`.  The only irrational quantity the code
produces is the square root used for the velocity magnitude and for the
transect geometry; those places are modelled with `Real.sqrt`.
-/

/-- Failures of the Python code, named after the specification's error
taxonomy.  `missingField` is the store lookup failure (NetCDF `KeyError`),
`indexError` a Python/numpy `IndexError`, `broadcastError` a numpy shape
mismatch in an elementwise operation, `inconsistentMesh` the `AssertionError`
raised by a failed assert of `combine_outputs` on same-shape arrays,
`attributeError` the Python `AttributeError` raised by those asserts when the
compared arrays have different shapes (the era's numpy makes `a == b` the
scalar `False`, and a Python bool has no `.all()`), `valueError` the numpy
`ValueError` from `numpy.append(..., axis=0)` on arrays with different column
counts, `nameError` the Python `NameError` from `combine_outputs([])` (the
loop never binds `p1`), and `degenerateTransect` the Python
`ZeroDivisionError` raised at `g1x = g1x/g1_norm` when `g1_norm == 0.0`. -/
inductive Err
  | missingField (nm : String)
  | indexError
  | broadcastError
  | inconsistentMesh
  | attributeError
  | valueError
  | nameError
  | degenerateTransect
deriving DecidableEq, Repr

/-- The result store handle (`NetCDFFile`): each required variable either is
present or is absent (lookup raises, modelled by `Option`). -/
structure Store where
  x : Option (List ℚ)
  y : Option (List ℚ)
  stage : Option (List (List ℚ))
  elevation : Option (List ℚ)
  xmomentum : Option (List (List ℚ))
  ymomentum : Option (List (List ℚ))
  time : Option (List ℚ)
  volumes : Option (List (ℕ × ℕ × ℕ))
deriving DecidableEq, Repr

/-- The vertex-resolution aggregate built by `read_output` / `get_output`.
The velocity-magnitude array `vel` of the Python object is elementwise
`sqrt(xvel**2 + yvel**2)` of the stored components (line 148), so it is kept
as the derived function `velMag` below rather than as a stored field. -/
structure Output where
  x : List ℚ
  y : List ℚ
  time : List ℚ
  vols : List (ℕ × ℕ × ℕ)
  stage : List (List ℚ)
  elev : List ℚ
  xmom : List (List ℚ)
  ymom : List (List ℚ)
  xvel : List (List ℚ)
  yvel : List (List ℚ)
  minimum_allowed_height : ℚ
deriving DecidableEq, Repr

/-- The exact value of the float literal `1.0e-06` used as the unconditional
regularisation offset in the velocity denominator. -/
def eps : ℚ := 1/1000000

/-- Element of a 1-D array, 0 outside the array (numpy access in the places we
index is always guarded; the default only pads statements). -/
def nth : List ℚ → ℕ → ℚ
  | [], _ => 0
  | q :: _, 0 => q
  | _ :: qs, n+1 => nth qs n

/-- Row of a 2-D array, `[]` outside the array. -/
def rowOf : List (List ℚ) → ℕ → List ℚ
  | [], _ => []
  | r :: _, 0 => r
  | _ :: rs, n+1 => rowOf rs n

/-- Element `[t, i]` of a 2-D array. -/
def val2 (xss : List (List ℚ)) (t i : ℕ) : ℚ := nth (rowOf xss t) i

/-- Positional lookup in a list, `none` out of range. -/
def opt {α : Type} : List α → ℕ → Option α
  | [], _ => none
  | a :: _, 0 => some a
  | _ :: as, n+1 => opt as n

/-- One row of `xmom[i,:]/(stage[i,:]-elev+1.0e-06)*(stage[i,:]>elev+h)`
(lines 145-146), elementwise over momentum, stage and elevation. -/
def velVals (h : ℚ) : List ℚ → List ℚ → List ℚ → List ℚ
  | m :: ms, s :: ss, e :: es =>
      (m / (s - e + eps) * (if e + h < s then 1 else 0)) :: velVals h ms ss es
  | _, _, _ => []

/-- The same row computation with numpy's shape requirement: the elementwise
expression needs `stage` row, `elev` and the momentum row to have one common
length, otherwise numpy raises. -/
def velRow (h : ℚ) (m s e : List ℚ) : Except Err (List ℚ) :=
  if s.length = e.length ∧ m.length = s.length then .ok (velVals h m s e)
  else .error .broadcastError

/-- The loop `for i in range(xmom.shape[0])` of lines 144-146: row `i` of
`stage` and of `ymom` is accessed for every `i` below the row count of `xmom`
(IndexError when exhausted; rows of `stage`/`ymom` beyond that count are
ignored), and each row is combined by `velRow`. -/
def computeVel (h : ℚ) (e : List ℚ) :
    List (List ℚ) → List (List ℚ) → List (List ℚ) →
    Except Err (List (List ℚ) × List (List ℚ))
  | [], _, _ => .ok ([], [])
  | xm :: xms, yms, sts =>
    match sts with
    | [] => .error .indexError
    | st :: sts2 =>
      match velRow h xm st e with
      | .error er => .error er
      | .ok xv =>
        match yms with
        | [] => .error .indexError
        | ym :: yms2 =>
          match velRow h ym st e with
          | .error er => .error er
          | .ok yv =>
            match computeVel h e xms yms2 sts2 with
            | .error er => .error er
            | .ok pr => .ok (xv :: pr.1, yv :: pr.2)

/-- `fid.variables[nm]`: lookup of a required variable in the store. -/
def getVar {α : Type} (o : Option α) (nm : String) : Except Err α :=
  match o with
  | some v => .ok v
  | none => .error (.missingField nm)

/-- `read_output` (lines 98-150): read the eight required variables in source
order, then derive the velocity components.  No shape validation beyond what
the numpy expressions themselves force. -/
def read_output (fid : Store) (minimum_allowed_height : ℚ) : Except Err Output :=
  match getVar fid.x "x" with
  | .error er => .error er
  | .ok x =>
    match getVar fid.y "y" with
    | .error er => .error er
    | .ok y =>
      match getVar fid.stage "stage" with
      | .error er => .error er
      | .ok stage =>
        match getVar fid.elevation "elevation" with
        | .error er => .error er
        | .ok elev =>
          match getVar fid.xmomentum "xmomentum" with
          | .error er => .error er
          | .ok xmom =>
            match getVar fid.ymomentum "ymomentum" with
            | .error er => .error er
            | .ok ymom =>
              match getVar fid.time "time" with
              | .error er => .error er
              | .ok time =>
                match getVar fid.volumes "volumes" with
                | .error er => .error er
                | .ok vols =>
                  match computeVel minimum_allowed_height elev xmom ymom stage with
                  | .error er => .error er
                  | .ok pr =>
                    .ok ⟨x, y, time, vols, stage, elev, xmom, ymom,
                         pr.1, pr.2, minimum_allowed_height⟩

/-- The velocity magnitude `vel = (xvel**2+yvel**2)**0.5` (line 148) at
position `[t, i]`. -/
noncomputable def velMag (p : Output) (t i : ℕ) : ℝ :=
  Real.sqrt (((val2 p.xvel t i : ℚ) : ℝ)^2 + ((val2 p.yvel t i : ℚ) : ℝ)^2)

/- ### Basic lemmas about the index helpers -/

lemma nth_ge (xs : List ℚ) (i : ℕ) (h : xs.length ≤ i) : nth xs i = 0 := by
  induction xs generalizing i with
  | nil => cases i <;> rfl
  | cons q qs ih =>
    cases i with
    | zero => simp at h
    | succ n => exact ih n (by simpa using h)

lemma rowOf_ge (xss : List (List ℚ)) (t : ℕ) (h : xss.length ≤ t) :
    rowOf xss t = [] := by
  induction xss generalizing t with
  | nil => cases t <;> rfl
  | cons r rs ih =>
    cases t with
    | zero => simp at h
    | succ n => exact ih n (by simpa using h)

lemma opt_lt {α : Type} (xs : List α) (n : ℕ) (h : n < xs.length) :
    ∃ a, opt xs n = some a := by
  induction xs generalizing n with
  | nil => simp at h
  | cons x xs ih =>
    cases n with
    | zero => exact ⟨x, rfl⟩
    | succ m => exact ih m (by simpa using h)

lemma opt_some_lt {α : Type} (xs : List α) (n : ℕ) (a : α)
    (h : opt xs n = some a) : n < xs.length := by
  induction xs generalizing n with
  | nil => simp [opt] at h
  | cons x xs ih =>
    cases n with
    | zero => simp
    | succ m => simpa using ih m h

lemma rowOf_of_opt (xss : List (List ℚ)) (t : ℕ) (r : List ℚ)
    (h : opt xss t = some r) : rowOf xss t = r := by
  induction xss generalizing t with
  | nil => simp [opt] at h
  | cons s ss ih =>
    cases t with
    | zero => simpa [opt, rowOf] using h
    | succ m => exact ih m h

lemma nth_of_opt (xs : List ℚ) (i : ℕ) (q : ℚ)
    (h : opt xs i = some q) : nth xs i = q := by
  induction xs generalizing i with
  | nil => simp [opt] at h
  | cons a as ih =>
    cases i with
    | zero => simpa [opt, nth] using h
    | succ m => exact ih m h

lemma opt_map {α β : Type} (f : α → β) (xs : List α) (n : ℕ) :
    opt (xs.map f) n = (opt xs n).map f := by
  induction xs generalizing n with
  | nil => cases n <;> rfl
  | cons x xs ih => cases n with
    | zero => rfl
    | succ m => simpa using ih m

/- ### Lemmas about the velocity row computation -/

lemma velVals_length (h : ℚ) (m s e : List ℚ)
    (h1 : s.length = e.length) (h2 : m.length = s.length) :
    (velVals h m s e).length = m.length := by
  induction m generalizing s e with
  | nil => simp [velVals]
  | cons a ms ih =>
    cases s with
    | nil => simp at h2
    | cons b ss =>
      cases e with
      | nil => simp at h1
      | cons c es =>
        simp only [velVals, List.length_cons]
        rw [ih ss es (by simpa using h1) (by simpa using h2)]

lemma velVals_nth (h : ℚ) (m s e : List ℚ) (i : ℕ)
    (h1 : s.length = e.length) (h2 : m.length = s.length) :
    nth (velVals h m s e) i =
      nth m i / (nth s i - nth e i + eps) *
        (if nth e i + h < nth s i then 1 else 0) := by
  induction m generalizing s e i with
  | nil =>
    cases s with
    | nil =>
      cases e with
      | nil => simp [velVals, nth, eps]
      | cons c es => simp at h1
    | cons b ss => simp at h2
  | cons a ms ih =>
    cases s with
    | nil => simp at h2
    | cons b ss =>
      cases e with
      | nil => simp at h1
      | cons c es =>
        cases i with
        | zero => simp [velVals, nth]
        | succ j =>
          simpa [velVals, nth] using
            ih ss es j (by simpa using h1) (by simpa using h2)

lemma velRow_nth (h : ℚ) (m s e v : List ℚ) (i : ℕ)
    (hok : velRow h m s e = .ok v) :
    nth v i = nth m i / (nth s i - nth e i + eps) *
      (if nth e i + h < nth s i then 1 else 0) := by
  unfold velRow at hok
  split at hok
  · next hc =>
    obtain ⟨h1, h2⟩ := hc
    obtain rfl : velVals h m s e = v := by simpa using hok
    by_cases hi : i < m.length
    · exact velVals_nth h m s e i h1 h2
    · push_neg at hi
      rw [nth_ge _ _ (by rw [velVals_length h m s e h1 h2]; exact hi)]
      rw [nth_ge m i hi, zero_div, zero_mul]
  · exact absurd hok (by simp)

/-- Row counts produced by the velocity loop: one row per row of `xmom`
(`xvel = xmom*0.0` then every row is assigned; `yvel = ymom*0.0` but only the
first `xmom`-row-count rows are assigned and the model keeps exactly those,
the numpy remainder being all zeros, which the 0-padded accessors share). -/
lemma computeVel_length (h : ℚ) (e : List ℚ)
    (xms yms sts xv yv : List (List ℚ))
    (hok : computeVel h e xms yms sts = .ok (xv, yv)) :
    xv.length = xms.length ∧ yv.length = xms.length := by
  induction xms generalizing yms sts xv yv with
  | nil =>
    simp only [computeVel] at hok
    obtain ⟨rfl, rfl⟩ : xv = [] ∧ yv = [] := by
      refine ⟨?_, ?_⟩ <;> (injection hok with hp; cases hp; rfl)
    simp
  | cons xm xms ih =>
    cases sts with
    | nil =>
      simp only [computeVel] at hok
      exact absurd hok (by simp)
    | cons st sts2 =>
      simp only [computeVel] at hok
      cases hxr : velRow h xm st e with
      | error er => simp only [hxr] at hok; exact absurd hok (by simp)
      | ok xvr =>
        simp only [hxr] at hok
        cases yms with
        | nil => exact absurd hok (by simp)
        | cons ym yms2 =>
          cases hyr : velRow h ym st e with
          | error er => simp only [hyr] at hok; exact absurd hok (by simp)
          | ok yvr =>
            simp only [hyr] at hok
            cases hrec : computeVel h e xms yms2 sts2 with
            | error er => simp only [hrec] at hok; exact absurd hok (by simp)
            | ok pr =>
              simp only [hrec] at hok
              obtain ⟨rfl, rfl⟩ : xv = xvr :: pr.1 ∧ yv = yvr :: pr.2 := by
                refine ⟨?_, ?_⟩ <;>
                  (injection hok with hp; cases hp; rfl)
              have := ih yms2 sts2 pr.1 pr.2 hrec
              simp only [List.length_cons, this.1, this.2, and_self]

/-- Full value characterisation of the velocity loop: whenever it succeeds,
every element of the x-velocity array (0-padded outside) satisfies the
momentum/depth formula with the wet indicator, and so does every element of
the y-velocity array in an assigned row (rows at or beyond the `xmom` row
count are never assigned and stay zero). -/
lemma computeVel_val (h : ℚ) (e : List ℚ)
    (xms yms sts xv yv : List (List ℚ))
    (hok : computeVel h e xms yms sts = .ok (xv, yv)) (t i : ℕ) :
    val2 xv t i = val2 xms t i / (val2 sts t i - nth e i + eps) *
        (if nth e i + h < val2 sts t i then 1 else 0) ∧
    (t < xms.length →
      val2 yv t i = val2 yms t i / (val2 sts t i - nth e i + eps) *
        (if nth e i + h < val2 sts t i then 1 else 0)) := by
  induction xms generalizing yms sts xv yv t with
  | nil =>
    simp only [computeVel] at hok
    obtain ⟨rfl, rfl⟩ : xv = [] ∧ yv = [] := by
      refine ⟨?_, ?_⟩ <;> (injection hok with hp; cases hp; rfl)
    refine ⟨by simp [val2, rowOf, nth, zero_div, zero_mul], by simp⟩
  | cons xm xms ih =>
    cases sts with
    | nil =>
      simp only [computeVel] at hok
      exact absurd hok (by simp)
    | cons st sts2 =>
      simp only [computeVel] at hok
      cases hxr : velRow h xm st e with
      | error er => simp only [hxr] at hok; exact absurd hok (by simp)
      | ok xvr =>
        simp only [hxr] at hok
        cases yms with
        | nil => exact absurd hok (by simp)
        | cons ym yms2 =>
          cases hyr : velRow h ym st e with
          | error er => simp only [hyr] at hok; exact absurd hok (by simp)
          | ok yvr =>
            simp only [hyr] at hok
            cases hrec : computeVel h e xms yms2 sts2 with
            | error er => simp only [hrec] at hok; exact absurd hok (by simp)
            | ok pr =>
              simp only [hrec] at hok
              obtain ⟨rfl, rfl⟩ : xv = xvr :: pr.1 ∧ yv = yvr :: pr.2 := by
                refine ⟨?_, ?_⟩ <;>
                  (injection hok with hp; cases hp; rfl)
              cases t with
              | zero =>
                constructor
                · simpa [val2, rowOf] using velRow_nth h xm st e xvr i hxr
                · intro _
                  simpa [val2, rowOf] using velRow_nth h ym st e yvr i hyr
              | succ t2 =>
                have hih := ih yms2 sts2 pr.1 pr.2 hrec t2
                constructor
                · simpa [val2, rowOf] using hih.1
                · intro hlt
                  have hlt2 : t2 < xms.length := by
                    simpa [Nat.succ_lt_succ_iff] using hlt
                  simpa [val2, rowOf] using hih.2 hlt2

/- ### Extraction from a successful read -/

/-- A successful `read_output` stores the arrays read from the store, the
velocity arrays produced by the loop, and the threshold it was given. -/
lemma read_output_ok (fid : Store) (h : ℚ) (p : Output)
    (hok : read_output fid h = .ok p) :
    fid.x = some p.x ∧ fid.y = some p.y ∧ fid.stage = some p.stage ∧
    fid.elevation = some p.elev ∧ fid.xmomentum = some p.xmom ∧
    fid.ymomentum = some p.ymom ∧ fid.time = some p.time ∧
    fid.volumes = some p.vols ∧
    computeVel h p.elev p.xmom p.ymom p.stage = .ok (p.xvel, p.yvel) ∧
    p.minimum_allowed_height = h := by
  unfold read_output at hok
  cases hfx : fid.x with
  | none => simp [hfx, getVar] at hok
  | some x =>
    cases hfy : fid.y with
    | none => simp [hfx, hfy, getVar] at hok
    | some y =>
      cases hfs : fid.stage with
      | none => simp [hfx, hfy, hfs, getVar] at hok
      | some stage =>
        cases hfe : fid.elevation with
        | none => simp [hfx, hfy, hfs, hfe, getVar] at hok
        | some elev =>
          cases hfxm : fid.xmomentum with
          | none => simp [hfx, hfy, hfs, hfe, hfxm, getVar] at hok
          | some xmom =>
            cases hfym : fid.ymomentum with
            | none => simp [hfx, hfy, hfs, hfe, hfxm, hfym, getVar] at hok
            | some ymom =>
              cases hft : fid.time with
              | none => simp [hfx, hfy, hfs, hfe, hfxm, hfym, hft, getVar] at hok
              | some time =>
                cases hfv : fid.volumes with
                | none =>
                  simp [hfx, hfy, hfs, hfe, hfxm, hfym, hft, hfv, getVar] at hok
                | some vols =>
                  simp only [hfx, hfy, hfs, hfe, hfxm, hfym, hft, hfv,
                    getVar] at hok
                  cases hcv : computeVel h elev xmom ymom stage with
                  | error er => simp [hcv] at hok
                  | ok pr =>
                    simp only [hcv] at hok
                    obtain rfl : (⟨x, y, time, vols, stage, elev, xmom, ymom,
                        pr.1, pr.2, h⟩ : Output) = p := by
                      injection hok
                    exact ⟨rfl, rfl, rfl, rfl, rfl, rfl, rfl, rfl, hcv, rfl⟩

/- ### Claims C1 and C2: the velocity derivation -/

/-- Claim C1: for every time step `t` and spatial index `i`, if
`stage[t,i] <= elev[i] + minimum_allowed_height` (a dry cell), then the
x-velocity, y-velocity and velocity magnitude computed by `read_output` at
`(t,i)` are exactly zero. -/
theorem read_output_dry_zero (fid : Store) (h : ℚ) (p : Output) (t i : ℕ)
    (hok : read_output fid h = .ok p)
    (hdry : val2 p.stage t i ≤ nth p.elev i + p.minimum_allowed_height) :
    val2 p.xvel t i = 0 ∧ val2 p.yvel t i = 0 ∧ velMag p t i = 0 := by
  obtain ⟨-, -, -, -, -, -, -, -, hcv, hq⟩ := read_output_ok fid h p hok
  have hval := computeVel_val h p.elev p.xmom p.ymom p.stage p.xvel p.yvel hcv t i
  rw [hq] at hdry
  have hind : (if nth p.elev i + h < val2 p.stage t i then (1:ℚ) else 0) = 0 :=
    if_neg (not_lt.mpr hdry)
  have hx : val2 p.xvel t i = 0 := by rw [hval.1, hind, mul_zero]
  have hy : val2 p.yvel t i = 0 := by
    by_cases ht : t < p.xmom.length
    · rw [hval.2 ht, hind, mul_zero]
    · push_neg at ht
      have hlen :=
        (computeVel_length h p.elev p.xmom p.ymom p.stage p.xvel p.yvel hcv).2
      unfold val2
      rw [rowOf_ge _ _ (by rw [hlen]; exact ht)]
      exact nth_ge [] i (by simp)
  refine ⟨hx, hy, ?_⟩
  unfold velMag
  rw [hx, hy]
  simp

/-- A dry store: one vertex with elevation 5 and stage 1, nonzero momenta. -/
def stDry : Store :=
  ⟨some [0], some [0], some [[1]], some [5], some [[3]], some [[4]],
   some [0], some [(0, 0, 0)]⟩

/-- The output `read_output` produces from `stDry` with threshold `1/1000`:
the dry indicator forces both velocity components to zero. -/
def pDry : Output :=
  ⟨[0], [0], [0], [(0, 0, 0)], [[1]], [5], [[3]], [[4]], [[0]], [[0]], 1/1000⟩

/-- Witness for claim C1 at the concrete dry store `stDry`. -/
theorem read_output_dry_zero_wit :
    val2 pDry.xvel 0 0 = 0 ∧ val2 pDry.yvel 0 0 = 0 ∧ velMag pDry 0 0 = 0 :=
  read_output_dry_zero stDry (1/1000) pDry 0 0
    (by norm_num [read_output, getVar, computeVel, velRow, velVals, stDry,
      pDry, eps])
    (by norm_num [val2, nth, rowOf, pDry])

/-- Claim C2: for every wet cell (`stage[t,i] > elev[i] + h_min`), the velocity
component computed by `read_output` equals
`momentum[t,i] / (stage[t,i] - elev[i] + 1e-6)` — the `1e-6` offset applied
unconditionally — and the velocity magnitude is `sqrt(xvel^2 + yvel^2)`.
The hypothesis `hdim` is the data-model invariant that the momentum
time-series share one leading dimension (section 3 of the specification). -/
theorem read_output_wet_velocity (fid : Store) (h : ℚ) (p : Output) (t i : ℕ)
    (hok : read_output fid h = .ok p)
    (hwet : nth p.elev i + p.minimum_allowed_height < val2 p.stage t i)
    (hdim : p.ymom.length = p.xmom.length) :
    val2 p.xvel t i = val2 p.xmom t i / (val2 p.stage t i - nth p.elev i + eps) ∧
    val2 p.yvel t i = val2 p.ymom t i / (val2 p.stage t i - nth p.elev i + eps) ∧
    velMag p t i =
      Real.sqrt (((val2 p.xvel t i : ℚ) : ℝ)^2 + ((val2 p.yvel t i : ℚ) : ℝ)^2) := by
  obtain ⟨-, -, -, -, -, -, -, -, hcv, hq⟩ := read_output_ok fid h p hok
  have hval := computeVel_val h p.elev p.xmom p.ymom p.stage p.xvel p.yvel hcv t i
  rw [hq] at hwet
  have hind : (if nth p.elev i + h < val2 p.stage t i then (1:ℚ) else 0) = 1 :=
    if_pos hwet
  refine ⟨by rw [hval.1, hind, mul_one], ?_, rfl⟩
  by_cases ht : t < p.xmom.length
  · rw [hval.2 ht, hind, mul_one]
  · push_neg at ht
    have hlen :=
      (computeVel_length h p.elev p.xmom p.ymom p.stage p.xvel p.yvel hcv).2
    have hyv : val2 p.yvel t i = 0 := by
      unfold val2
      rw [rowOf_ge _ _ (by rw [hlen]; exact ht)]
      exact nth_ge [] i (by simp)
    have hym : val2 p.ymom t i = 0 := by
      unfold val2
      rw [rowOf_ge _ _ (by rw [hdim]; exact ht)]
      exact nth_ge [] i (by simp)
    rw [hyv, hym, zero_div]

/-- A wet store: one vertex with elevation 0 and stage 2, momenta 4 and 6. -/
def stWet : Store :=
  ⟨some [0], some [0], some [[2]], some [0], some [[4]], some [[6]],
   some [0], some [(0, 0, 0)]⟩

/-- The output `read_output` produces from `stWet` with threshold `1/1000`:
each velocity component is momentum divided by `2 + 1e-6`. -/
def pWet : Output :=
  ⟨[0], [0], [0], [(0, 0, 0)], [[2]], [0], [[4]], [[6]],
   [[4000000/2000001]], [[6000000/2000001]], 1/1000⟩

/-- Witness for claim C2 at the concrete wet store `stWet`. -/
theorem read_output_wet_velocity_wit :
    val2 pWet.xvel 0 0 =
      val2 pWet.xmom 0 0 / (val2 pWet.stage 0 0 - nth pWet.elev 0 + eps) ∧
    val2 pWet.yvel 0 0 =
      val2 pWet.ymom 0 0 / (val2 pWet.stage 0 0 - nth pWet.elev 0 + eps) ∧
    velMag pWet 0 0 =
      Real.sqrt (((val2 pWet.xvel 0 0 : ℚ) : ℝ)^2 + ((val2 pWet.yvel 0 0 : ℚ) : ℝ)^2) :=
  read_output_wet_velocity stWet (1/1000) pWet 0 0
    (by norm_num [read_output, getVar, computeVel, velRow, velVals, stWet,
      pWet, eps])
    (by norm_num [val2, nth, rowOf, pWet])
    (by norm_num [pWet])

/- ### combine_outputs (lines 31-80) -/

/-- `assert (a == b).all()` (lines 66-68).  When the two arrays have the same
shape, numpy compares elementwise and `.all()` is true exactly when the
arrays are equal; a failed assert raises AssertionError (the specification's
`InconsistentMeshError`).  When the shapes differ, the era's numpy makes
`a == b` the scalar `False`, and `.all()` on a Python bool raises
AttributeError. -/
def assertAll {α : Type} [DecidableEq α] (a b : List α) : Except Err Unit :=
  if a.length = b.length then
    if a = b then .ok () else .error .inconsistentMesh
  else .error .attributeError

/-- `numpy.append(a, b, axis=0)` (lines 70-75) on time × space arrays: the
operands must agree in column count, otherwise numpy raises ValueError.
numpy arrays are rectangular, so for the lists modelling them the
requirement is that every row of `a` and every row of `b` share one
length. -/
def appendRows (a b : List (List ℚ)) : Except Err (List (List ℚ)) :=
  if a.all (fun ra => b.all (fun rb => decide (ra.length = rb.length))) then
    .ok (a ++ b)
  else .error .valueError

/-- The body of the `for i, filename in enumerate(filename_list)` loop for
`i >= 1` (lines 63-75): assert that `x`, `y` and `vols` agree with the
accumulated object, then append `time` (a 1-D `numpy.append`, which never
fails) and the five time-series arrays along the time axis in source order.
`elev` is never compared and never extended: the accumulated (first file's)
elevation is kept.  The velocity magnitude `p1.vel` appended on line 75 is
elementwise-derived from `xvel`/`yvel` and shares their shape, so its
concatenation (and its append error) is reflected by the `xvel`/`yvel`
appends and by `velMag` of the concatenated components. -/
def combineLoop (h : ℚ) : Output → List Store → Except Err Output
  | p1, [] => .ok p1
  | p1, f :: rest =>
    match read_output f h with
    | .error er => .error er
    | .ok pt =>
      match assertAll p1.x pt.x with
      | .error er => .error er
      | .ok _ =>
      match assertAll p1.y pt.y with
      | .error er => .error er
      | .ok _ =>
      match assertAll p1.vols pt.vols with
      | .error er => .error er
      | .ok _ =>
      match appendRows p1.stage pt.stage with
      | .error er => .error er
      | .ok stage2 =>
      match appendRows p1.xmom pt.xmom with
      | .error er => .error er
      | .ok xmom2 =>
      match appendRows p1.ymom pt.ymom with
      | .error er => .error er
      | .ok ymom2 =>
      match appendRows p1.xvel pt.xvel with
      | .error er => .error er
      | .ok xvel2 =>
      match appendRows p1.yvel pt.yvel with
      | .error er => .error er
      | .ok yvel2 =>
        combineLoop h
          { p1 with
            time := p1.time ++ pt.time,
            stage := stage2,
            xmom := xmom2,
            ymom := ymom2,
            xvel := xvel2,
            yvel := yvel2 }
          rest

/-- `combine_outputs(filename_list, minimum_allowed_height)` (lines 51-80):
read each source with `read_output` and fold with `combineLoop`.  An empty
list leaves `p1` unbound and the final field copy raises `NameError`. -/
def combine_outputs (files : List Store) (minimum_allowed_height : ℚ) :
    Except Err Output :=
  match files with
  | [] => .error .nameError
  | f :: rest =>
    match read_output f minimum_allowed_height with
    | .error er => .error er
    | .ok p1 => combineLoop minimum_allowed_height p1 rest

/- ### Claim C6: a single source combines to exactly the reader's output -/

/-- Claim C6: `combine_outputs [f]` produces exactly what `read_output f`
produces with the same threshold — the same `Except` outcome, hence an
`Output` agreeing in every field (and therefore also in the derived
velocity magnitude `velMag`). -/
theorem combine_single_eq_read (f : Store) (h : ℚ) :
    combine_outputs [f] h = read_output f h := by
  unfold combine_outputs
  cases hr : read_output f h with
  | error er => simp only [hr]
  | ok p1 => simp only [hr, combineLoop]

/- ### Claim C5: mesh-consistency validation in combine_outputs -/

lemma assertAll_ok {α : Type} [DecidableEq α] (a b : List α) (u : Unit)
    (hok : assertAll a b = .ok u) : a = b := by
  unfold assertAll at hok
  split at hok
  · split at hok
    · assumption
    · exact absurd hok (by simp)
  · exact absurd hok (by simp)

/-- Every aggregate the loop returns keeps the accumulated object's `x`,
`y`, `vols`, `elev` and threshold, and every remaining source reads
successfully with `x`, `y` and `vols` equal to the accumulated object's —
with no condition whatever on the sources' elevations. -/
lemma combineLoop_ok_inv (h : ℚ) (rest : List Store) (pacc out : Output)
    (hok : combineLoop h pacc rest = .ok out) :
    out.x = pacc.x ∧ out.y = pacc.y ∧ out.vols = pacc.vols ∧
    out.elev = pacc.elev ∧
    out.minimum_allowed_height = pacc.minimum_allowed_height ∧
    ∀ f, f ∈ rest → ∃ pf, read_output f h = .ok pf ∧
      pf.x = pacc.x ∧ pf.y = pacc.y ∧ pf.vols = pacc.vols := by
  induction rest generalizing pacc with
  | nil =>
    simp only [combineLoop] at hok
    obtain rfl : pacc = out := by injection hok
    exact ⟨rfl, rfl, rfl, rfl, rfl, by intro f hf; simp at hf⟩
  | cons f fs ih =>
    simp only [combineLoop] at hok
    cases hr : read_output f h with
    | error er => simp only [hr] at hok; exact absurd hok (by simp)
    | ok pt =>
    simp only [hr] at hok
    cases hax : assertAll pacc.x pt.x with
    | error er => simp only [hax] at hok; exact absurd hok (by simp)
    | ok ux =>
    simp only [hax] at hok
    cases hay : assertAll pacc.y pt.y with
    | error er => simp only [hay] at hok; exact absurd hok (by simp)
    | ok uy =>
    simp only [hay] at hok
    cases hav : assertAll pacc.vols pt.vols with
    | error er => simp only [hav] at hok; exact absurd hok (by simp)
    | ok uv =>
    simp only [hav] at hok
    cases has : appendRows pacc.stage pt.stage with
    | error er => simp only [has] at hok; exact absurd hok (by simp)
    | ok stage2 =>
    simp only [has] at hok
    cases haxm : appendRows pacc.xmom pt.xmom with
    | error er => simp only [haxm] at hok; exact absurd hok (by simp)
    | ok xmom2 =>
    simp only [haxm] at hok
    cases haym : appendRows pacc.ymom pt.ymom with
    | error er => simp only [haym] at hok; exact absurd hok (by simp)
    | ok ymom2 =>
    simp only [haym] at hok
    cases haxv : appendRows pacc.xvel pt.xvel with
    | error er => simp only [haxv] at hok; exact absurd hok (by simp)
    | ok xvel2 =>
    simp only [haxv] at hok
    cases hayv : appendRows pacc.yvel pt.yvel with
    | error er => simp only [hayv] at hok; exact absurd hok (by simp)
    | ok yvel2 =>
    simp only [hayv] at hok
    obtain ⟨hx2, hy2, hv2, he2, hh2, hall⟩ := ih _ hok
    refine ⟨hx2, hy2, hv2, he2, hh2, ?_⟩
    intro g hg
    rcases List.mem_cons.mp hg with hg | hg
    · subst hg
      exact ⟨pt, hr, (assertAll_ok _ _ ux hax).symm,
        (assertAll_ok _ _ uy hay).symm, (assertAll_ok _ _ uv hav).symm⟩
    · obtain ⟨pf, hpf, hfx, hfy, hfv⟩ := hall g hg
      exact ⟨pf, hpf, hfx, hfy, hfv⟩

/-- Amended claim C5: over every list of two or more sources,
`combine_outputs` never compares elevation arrays.  Whenever it returns an
aggregate, that aggregate carries the FIRST source's `x`, `y`, `vols` and
elevation, and every later source was read successfully with `x`, `y` and
`vols` equal to the first source's — elevations unconstrained (so, as the
counterexample shows concretely, sources differing only in elevation
combine without error).  Consequently a list in which some source's `x`,
`y` or `vols` differs from the first's never yields an aggregate; when the
disagreeing arrays have the first source's shapes the failure is the
mesh-inconsistency error (a failed assert), shown here for the source the
loop checks first. -/
theorem combine_validation (f0 f1 : Store) (rest : List Store) (h : ℚ) :
    (∀ out, combine_outputs (f0 :: f1 :: rest) h = .ok out →
      ∃ p1, read_output f0 h = .ok p1 ∧
        out.x = p1.x ∧ out.y = p1.y ∧ out.vols = p1.vols ∧
        out.elev = p1.elev ∧
        out.minimum_allowed_height = p1.minimum_allowed_height ∧
        ∀ f, f ∈ f1 :: rest → ∃ pf, read_output f h = .ok pf ∧
          pf.x = p1.x ∧ pf.y = p1.y ∧ pf.vols = p1.vols) ∧
    (∀ p1 pf, read_output f0 h = .ok p1 → read_output f1 h = .ok pf →
      pf.x.length = p1.x.length → pf.y.length = p1.y.length →
      pf.vols.length = p1.vols.length →
      ¬(pf.x = p1.x ∧ pf.y = p1.y ∧ pf.vols = p1.vols) →
      combine_outputs (f0 :: f1 :: rest) h = .error .inconsistentMesh) := by
  constructor
  · intro out hok
    unfold combine_outputs at hok
    cases hr : read_output f0 h with
    | error er => simp only [hr] at hok; exact absurd hok (by simp)
    | ok p1 =>
      simp only [hr] at hok
      obtain ⟨hx, hy, hv, he, hh, hall⟩ := combineLoop_ok_inv h _ p1 out hok
      exact ⟨p1, rfl, hx, hy, hv, he, hh, hall⟩
  · intro p1 pf h0 h1 hlx hly hlv hne
    unfold combine_outputs
    simp only [h0, combineLoop, h1]
    by_cases hx : p1.x = pf.x
    · have hux : assertAll p1.x pf.x = .ok () := by
        unfold assertAll
        rw [if_pos hlx.symm, if_pos hx]
      simp only [hux]
      by_cases hy : p1.y = pf.y
      · have huy : assertAll p1.y pf.y = .ok () := by
          unfold assertAll
          rw [if_pos hly.symm, if_pos hy]
        simp only [huy]
        have hv : ¬(p1.vols = pf.vols) := by
          intro hv
          exact hne ⟨hx.symm, hy.symm, hv.symm⟩
        have huv : assertAll p1.vols pf.vols = .error .inconsistentMesh := by
          unfold assertAll
          rw [if_pos hlv.symm, if_neg hv]
        simp only [huv]
      · have huy : assertAll p1.y pf.y = .error .inconsistentMesh := by
          unfold assertAll
          rw [if_pos hly.symm, if_neg hy]
        simp only [huy]
    · have hux : assertAll p1.x pf.x = .error .inconsistentMesh := by
        unfold assertAll
        rw [if_pos hlx.symm, if_neg hx]
      simp only [hux]

/-- First source: flat mesh, elevation 0. -/
def stElevA : Store :=
  ⟨some [0], some [0], some [[1]], some [0], some [[0]], some [[0]],
   some [0], some [(0, 0, 0)]⟩

/-- Second source: identical to `stElevA` except the elevation is 7. -/
def stElevB : Store :=
  ⟨some [0], some [0], some [[1]], some [7], some [[0]], some [[0]],
   some [0], some [(0, 0, 0)]⟩

/-- What `read_output` makes of `stElevA`. -/
def pElevA : Output :=
  ⟨[0], [0], [0], [(0, 0, 0)], [[1]], [0], [[0]], [[0]], [[0]], [[0]], 1/1000⟩

/-- What `read_output` makes of `stElevB`. -/
def pElevB : Output :=
  ⟨[0], [0], [0], [(0, 0, 0)], [[1]], [7], [[0]], [[0]], [[0]], [[0]], 1/1000⟩

/-- The aggregate `combine_outputs` builds from `stElevA` and `stElevB`:
concatenated time series, the FIRST source's elevation. -/
def pElevAB : Output :=
  ⟨[0], [0], [0, 0], [(0, 0, 0)], [[1], [1]], [0], [[0], [0]],
   [[0], [0]], [[0], [0]], [[0], [0]], 1/1000⟩

/-- Counterexample to claim C5 as stated: two sources whose elevation arrays
differ (0 versus 7) while coordinates and connectivity agree are combined
WITHOUT any error — `combine_outputs` returns an aggregate (carrying the
first source's elevation) instead of failing with the mesh-inconsistency
error. -/
theorem combine_elev_not_checked :
    combine_outputs [stElevA, stElevB] (1/1000) = .ok pElevAB ∧
    stElevA.elevation ≠ stElevB.elevation := by
  constructor
  · norm_num [combine_outputs, combineLoop, assertAll, appendRows,
      read_output, getVar, computeVel, velRow, velVals, stElevA, stElevB,
      pElevAB, eps]
  · norm_num [stElevA, stElevB]

/-- Witness for the amended claim C5 at the concrete pair `stElevA`,
`stElevB` (equal coordinates and connectivity, elevations 0 and 7): the
combination succeeds, and the theorem yields a first-source output whose
`x`, `y`, `vols` and elevation the aggregate carries, the second source
agreeing on `x`, `y`, `vols` only. -/
theorem combine_validation_wit :
    ∃ p1, read_output stElevA (1/1000) = .ok p1 ∧
      pElevAB.x = p1.x ∧ pElevAB.y = p1.y ∧ pElevAB.vols = p1.vols ∧
      pElevAB.elev = p1.elev ∧
      pElevAB.minimum_allowed_height = p1.minimum_allowed_height ∧
      ∀ f, f ∈ [stElevB] → ∃ pf, read_output f (1/1000) = .ok pf ∧
        pf.x = p1.x ∧ pf.y = p1.y ∧ pf.vols = p1.vols :=
  (combine_validation stElevA stElevB [] (1/1000)).1 pElevAB
    (by norm_num [combine_outputs, combineLoop, assertAll, appendRows,
      read_output, getVar, computeVel, velRow, velVals, stElevA, stElevB,
      pElevAB, eps])

/- ### Claim C9: validation performed by read_output -/

/-- All eight variables `read_output` looks up are present in the store. -/
def requiredPresent (fid : Store) : Bool :=
  fid.x.isSome && fid.y.isSome && fid.stage.isSome && fid.elevation.isSome &&
  fid.xmomentum.isSome && fid.ymomentum.isSome && fid.time.isSome &&
  fid.volumes.isSome

/-- Amended claim C9 (missing-variable half): when any required variable is
absent from the store, `read_output` fails with a missing-field error (the
store lookup raises). -/
theorem read_output_missing_field (fid : Store) (h : ℚ)
    (hm : requiredPresent fid = false) :
    ∃ nm, read_output fid h = .error (.missingField nm) := by
  unfold requiredPresent at hm
  unfold read_output
  cases hfx : fid.x with
  | none => exact ⟨"x", by simp [hfx, getVar]⟩
  | some x =>
    cases hfy : fid.y with
    | none => exact ⟨"y", by simp [hfx, hfy, getVar]⟩
    | some y =>
      cases hfs : fid.stage with
      | none => exact ⟨"stage", by simp [hfx, hfy, hfs, getVar]⟩
      | some stage =>
        cases hfe : fid.elevation with
        | none => exact ⟨"elevation", by simp [hfx, hfy, hfs, hfe, getVar]⟩
        | some elev =>
          cases hfxm : fid.xmomentum with
          | none =>
            exact ⟨"xmomentum", by simp [hfx, hfy, hfs, hfe, hfxm, getVar]⟩
          | some xmom =>
            cases hfym : fid.ymomentum with
            | none =>
              exact ⟨"ymomentum",
                by simp [hfx, hfy, hfs, hfe, hfxm, hfym, getVar]⟩
            | some ymom =>
              cases hft : fid.time with
              | none =>
                exact ⟨"time",
                  by simp [hfx, hfy, hfs, hfe, hfxm, hfym, hft, getVar]⟩
              | some time =>
                cases hfv : fid.volumes with
                | none =>
                  exact ⟨"volumes",
                    by simp [hfx, hfy, hfs, hfe, hfxm, hfym, hft, hfv, getVar]⟩
                | some vols =>
                  exact absurd hm
                    (by simp [hfx, hfy, hfs, hfe, hfxm, hfym, hft, hfv])

/-- A store whose `stage` variable is absent. -/
def stMissing : Store :=
  ⟨some [0], some [0], none, some [0], some [[0]], some [[0]],
   some [0], some [(0, 0, 0)]⟩

/-- Witness for the amended claim C9 at the concrete store `stMissing`. -/
theorem read_output_missing_field_wit :
    ∃ nm, read_output stMissing (1/1000) = .error (.missingField nm) :=
  read_output_missing_field stMissing (1/1000) (by rfl)

/-- A store with disagreeing leading dimensions (`stage` has two time rows,
`xmomentum`, `ymomentum` and `time` have one) and an out-of-range
connectivity entry (vertex index 5 with only one vertex). -/
def stShape : Store :=
  ⟨some [0], some [0], some [[1], [2]], some [0], some [[1]], some [[1]],
   some [0], some [(5, 5, 5)]⟩

/-- What `read_output` makes of `stShape`. -/
def pShape : Output :=
  ⟨[0], [0], [0], [(5, 5, 5)], [[1], [2]], [0], [[1]], [[1]],
   [[1000000/1000001]], [[1000000/1000001]], 1/1000⟩

/-- Counterexample to claim C9 as stated: `stShape` has disagreeing leading
dimensions (stage: 2 rows; xmomentum, ymomentum, time: 1) AND an
out-of-range `vols` entry, yet `read_output` succeeds — it performs no such
validation, so it does not fail with a shape-mismatch error. -/
theorem read_output_no_shape_check :
    read_output stShape (1/1000) = .ok pShape ∧
    pShape.stage.length ≠ pShape.xmom.length ∧
    pShape.time.length ≠ pShape.stage.length ∧
    (5, 5, 5) ∈ pShape.vols ∧ pShape.x.length = 1 := by
  refine ⟨?_, ?_, ?_, ?_, ?_⟩
  · norm_num [read_output, getVar, computeVel, velRow, velVals, stShape,
      pShape, eps]
  · norm_num [pShape]
  · norm_num [pShape]
  · norm_num [pShape]
  · norm_num [pShape]

/- ### near_transect (lines 281-338) -/

/-- The selection test `distp < tol` of line 321, expressed over the
rationals: the code compares
`abs(a*x + b*y + c) * (1/sqrt(a**2+b**2))` with `tol`; since the norm is
positive (one of `a`, `b` is 1 in both branches), this holds exactly when
`tol` is positive and the squared residual is below `tol^2 * (a^2+b^2)`.
The lemma `nearSel_iff` below certifies the equivalence with the code's
real-valued comparison. -/
def nearSel (a b c tol xv yv : ℚ) : Bool :=
  decide (0 < tol) && decide ((a * xv + b * yv + c)^2 < tol^2 * (a^2 + b^2))

lemma nearSel_iff (a b c tol xv yv : ℚ) (hab : 0 < a^2 + b^2) :
    nearSel a b c tol xv yv = true ↔
      |((a : ℝ) * xv + b * yv + c)| *
        (Real.sqrt ((a : ℝ)^2 + (b : ℝ)^2))⁻¹ < (tol : ℝ) := by
  have habR : (0 : ℝ) < (a : ℝ)^2 + (b : ℝ)^2 := by exact_mod_cast hab
  have hS : (0 : ℝ) < Real.sqrt ((a : ℝ)^2 + (b : ℝ)^2) :=
    Real.sqrt_pos.mpr habR
  rw [← div_eq_mul_inv, div_lt_iff₀ hS]
  unfold nearSel
  simp only [Bool.and_eq_true, decide_eq_true_eq]
  constructor
  · rintro ⟨htol, hsq⟩
    have htolR : (0 : ℝ) < (tol : ℝ) := by exact_mod_cast htol
    have hsqR : ((a : ℝ) * xv + b * yv + c)^2 <
        (tol : ℝ)^2 * ((a : ℝ)^2 + (b : ℝ)^2) := by
      exact_mod_cast hsq
    have hrhs : ((tol : ℝ) * Real.sqrt ((a : ℝ)^2 + (b : ℝ)^2))^2 =
        (tol : ℝ)^2 * ((a : ℝ)^2 + (b : ℝ)^2) := by
      rw [mul_pow, Real.sq_sqrt habR.le]
    have habs : |((a : ℝ) * xv + b * yv + c)|^2 <
        ((tol : ℝ) * Real.sqrt ((a : ℝ)^2 + (b : ℝ)^2))^2 := by
      rw [sq_abs, hrhs]; exact hsqR
    have hpos : (0 : ℝ) ≤ (tol : ℝ) * Real.sqrt ((a : ℝ)^2 + (b : ℝ)^2) :=
      (mul_pos htolR hS).le
    exact lt_of_pow_lt_pow_left₀ 2 hpos habs
  · intro hlt
    have habs : (0 : ℝ) ≤ |((a : ℝ) * xv + b * yv + c)| := abs_nonneg _
    have htolR : (0 : ℝ) < (tol : ℝ) := by
      by_contra hn
      push_neg at hn
      have : (tol : ℝ) * Real.sqrt ((a : ℝ)^2 + (b : ℝ)^2) ≤ 0 :=
        mul_nonpos_of_nonpos_of_nonneg hn hS.le
      exact absurd (lt_of_le_of_lt habs hlt) (by linarith [this] )
    refine ⟨by exact_mod_cast htolR, ?_⟩
    have hsqR : |((a : ℝ) * xv + b * yv + c)|^2 <
        ((tol : ℝ) * Real.sqrt ((a : ℝ)^2 + (b : ℝ)^2))^2 :=
      pow_lt_pow_left₀ hlt habs (by norm_num)
    rw [sq_abs, mul_pow, Real.sq_sqrt habR.le] at hsqR
    exact_mod_cast hsqR

/-- `near_transect(p, point1, point2, tol)` (lines 281-338).  The line
coefficients `a, b, c` follow the two branches of lines 303-315; the
selection repeats the code's `distp < tol` through `nearSel` (see
`nearSel_iff`); the elementwise sum `p.x*a + p.y*b` requires the two
coordinate arrays to share one length.  The along-line coordinate keeps the
source exactly, including line 330, which divides the already normalised
`g1x` by the norm again instead of normalising `g1y`
(`g1y = g1x/g1_norm`).  When the endpoints coincide, `g1_norm` is `0.0` and
Python raises ZeroDivisionError at line 329, before anything is returned;
the guard below is that failure. -/
noncomputable def nearTransect (xs ys : List ℚ) (point1 point2 : ℚ × ℚ)
    (tol : ℚ) : Except Err (List ℕ × List ℝ) :=
  if xs.length ≠ ys.length then .error .broadcastError else
  let x1 := point1.1
  let y1 := point1.2
  let x2 := point2.1
  let y2 := point2.2
  let abc : ℚ × ℚ × ℚ :=
    if x1 ≠ x2 then
      let gradient := (y2 - y1) / (x2 - x1)
      let intercept := y1 - gradient * x1
      (-gradient, 1, -intercept)
    else
      (1, 0, -x2)
  let a := abc.1
  let b := abc.2.1
  let c := abc.2.2
  let near_points := (List.range xs.length).filter
    (fun i => nearSel a b c tol (nth xs i) (nth ys i))
  let g1x := x2 - x1
  let g1y := y2 - y1
  if g1x^2 + g1y^2 = 0 then .error .degenerateTransect else
  let g1n : ℝ := Real.sqrt ((g1x : ℝ)^2 + (g1y : ℝ)^2)
  let g1xu : ℝ := (g1x : ℝ) / g1n
  let g1yu : ℝ := g1xu / g1n
  let g2x := near_points.map (fun i => ((nth xs i : ℚ) : ℝ) - (x1 : ℝ))
  let g2y := near_points.map (fun i => ((nth ys i : ℚ) : ℝ) - (y1 : ℝ))
  let local_coord := (g2x.zip g2y).map (fun q => g1xu * q.1 + g1yu * q.2)
  .ok (near_points, local_coord)

/-- Follows the specification's words (section 4.5): the along-line
coordinate of a point is the dot product of `(point - endpoint1)` with the
unit vector from endpoint1 to endpoint2, both components divided by the same
norm. -/
noncomputable def specUnitCoord (point1 point2 pt : ℚ × ℚ) : ℝ :=
  let nrm : ℝ := Real.sqrt (((point2.1 - point1.1 : ℚ) : ℝ)^2 +
    ((point2.2 - point1.2 : ℚ) : ℝ)^2)
  ((pt.1 - point1.1 : ℚ) : ℝ) * (((point2.1 - point1.1 : ℚ) : ℝ) / nrm) +
  ((pt.2 - point1.2 : ℚ) : ℝ) * (((point2.2 - point1.2 : ℚ) : ℝ) / nrm)

/- ### Claim C3: coincident endpoints fail -/

/-- Claim C3: for coincident transect endpoints, `near_transect` fails (the
division `g1x/g1_norm` by the zero norm raises before anything is returned)
rather than returning any selection and coordinates. -/
theorem nearTransect_degenerate (xs ys : List ℚ) (pt : ℚ × ℚ) (tol : ℚ)
    (hlen : xs.length = ys.length) :
    nearTransect xs ys pt pt tol = .error .degenerateTransect := by
  unfold nearTransect
  rw [if_neg (by simp [hlen])]
  simp only [sub_self, ne_eq]
  rw [if_pos (by norm_num)]

/-- Witness for claim C3 at concrete coincident endpoints `(1, 2)`. -/
theorem nearTransect_degenerate_wit :
    nearTransect [0] [0] (1, 2) (1, 2) 1 = .error .degenerateTransect :=
  nearTransect_degenerate [0] [0] (1, 2) 1 rfl

/- ### Claims C4 and C10: the along-line coordinate and parallel outputs -/

/-- Concrete evaluation: the vertical transect from `(0,0)` to `(0,1)` with
the single point `(0, 5)` (on the line, hence selected) gets along-line
coordinate 0, because line 330 normalises the y-component with the
x-component's value: both `g1x/g1_norm` and `(g1x/g1_norm)/g1_norm` are 0
here. -/
lemma nearTransect_vert_eval :
    nearTransect [0] [5] (0, 0) (0, 1) 1 = .ok ([0], [0]) := by
  norm_num [nearTransect, nearSel, nth, List.range_succ, List.filter,
    Real.sqrt_one]

/-- Claim C4 (the code_bug evaluation): on the vertical transect
`(0,0) - (0,1)` the code returns along-line coordinate 0 for the point
`(0, 5)`, whereas the dot product with the unit direction vector — the
specified value — is 5. -/
theorem nearTransect_unit_vector_bug :
    nearTransect [0] [5] (0, 0) (0, 1) 1 = .ok ([0], [0]) ∧
    specUnitCoord (0, 0) (0, 1) (0, 5) = 5 ∧ (0 : ℝ) ≠ 5 := by
  refine ⟨nearTransect_vert_eval, ?_, by norm_num⟩
  norm_num [specUnitCoord, Real.sqrt_one]

/-- Claim C10: whenever `near_transect` returns, the index list and the
coordinate list have the same length (one coordinate per selected index). -/
theorem nearTransect_parallel (xs ys : List ℚ) (p1 p2 : ℚ × ℚ) (tol : ℚ)
    (r : List ℕ × List ℝ) (hok : nearTransect xs ys p1 p2 tol = .ok r) :
    r.1.length = r.2.length := by
  unfold nearTransect at hok
  split at hok
  · exact absurd hok (by simp)
  · dsimp only [] at hok
    split at hok
    · exact absurd hok (by simp)
    · obtain rfl : _ = r := by injection hok
      simp [List.length_map, List.length_zip]

/-- Witness for claim C10 at the concrete vertical-transect input: one
selected index, one coordinate. -/
theorem nearTransect_parallel_wit :
    ([0] : List ℕ).length = ([0] : List ℝ).length :=
  nearTransect_parallel [0] [5] (0, 0) (0, 1) 1 ([0], [0])
    nearTransect_vert_eval

/- ### get_centroids / get_centroid_values (lines 156-232) -/

/-- The centroid aggregate returned by `get_centroid_values` in return order
`time, x, y, stage, xmom, ymom, elev, xvel, yvel` (line 231); the magnitude
`vel_cent` of line 229 is again elementwise `sqrt(xvel**2 + yvel**2)` and is
kept derived. -/
structure CentOut where
  time : List ℚ
  x : List ℚ
  y : List ℚ
  stage : List (List ℚ)
  xmom : List (List ℚ)
  ymom : List (List ℚ)
  elev : List ℚ
  xvel : List (List ℚ)
  yvel : List (List ℚ)
deriving DecidableEq, Repr

/-- numpy fancy indexing `xs[idx]` (used as `p.x[vols0]` etc.): every index
must be in range, otherwise IndexError; the result maps each index to its
element. -/
def fancyIdx (xs : List ℚ) (idx : List ℕ) : Except Err (List ℚ) :=
  if idx.all (fun v => decide (v < xs.length)) then
    .ok (idx.map (fun v => nth xs v))
  else .error .indexError

/-- Elementwise `(a + b + c)/3.0` of three equal-length arrays (the three
vertex-value arrays of one field). -/
def avg3 : List ℚ → List ℚ → List ℚ → List ℚ
  | a :: as, b :: bs, c :: cs => ((a + b + c) / 3) :: avg3 as bs cs
  | _, _, _ => []

/-- `(F[vols0] + F[vols1] + F[vols2])/3.0` for a 1-D field `F`
(lines 189-193). -/
def centField1 (xs : List ℚ) (v0 v1 v2 : List ℕ) : Except Err (List ℚ) :=
  match fancyIdx xs v0, fancyIdx xs v1, fancyIdx xs v2 with
  | .error er, _, _ => .error er
  | _, .error er, _ => .error er
  | _, _, .error er => .error er
  | .ok a, .ok b, .ok c => .ok (avg3 a b c)

/-- Error-propagating map over the rows of a 2-D array. -/
def mapExcept {α β : Type} (f : α → Except Err β) : List α → Except Err (List β)
  | [] => .ok []
  | a :: as =>
    match f a with
    | .error er => .error er
    | .ok b =>
      match mapExcept f as with
      | .error er => .error er
      | .ok bs => .ok (b :: bs)

/-- `(F[:,vols0] + F[:,vols1] + F[:,vols2])/3.0` for a time × space field
(line 192 and lines 198-199 / 214-215): row-by-row vertex averaging. -/
def centField2 (xss : List (List ℚ)) (v0 v1 v2 : List ℕ) :
    Except Err (List (List ℚ)) :=
  mapExcept (fun r => centField1 r v0 v1 v2) xss

/-- `stage_cent*0.0`: an all-zero array of the shape of the given array
(lines 202-203 and 218-219). -/
def zeroRows (xss : List (List ℚ)) : List (List ℚ) :=
  xss.map (fun r => r.map (fun _ => (0 : ℚ)))

/-- One row of the momentum reconstruction
`vel*(stage-elev+1.0e-06)*(stage>elev+h)` (lines 208-211). -/
def momVals (h : ℚ) : List ℚ → List ℚ → List ℚ → List ℚ
  | v :: vs, s :: ss, e :: es =>
      (v * (s - e + eps) * (if e + h < s then 1 else 0)) :: momVals h vs ss es
  | _, _, _ => []

/-- The assignment loop `for i in range(t)` shared by the two branches
(lines 207-211 and 223-225): start from a zero array of the stage-centroid
shape, and for each `i` below `len(p.time)` read row `i` of the primary
array and of the stage-centroid array (IndexError when either is missing)
and overwrite row `i` with `g` of the two rows.  Rows at or beyond
`len(p.time)` keep their zeros. -/
def centLoop (g : List ℚ → List ℚ → List ℚ) (prim st : List (List ℚ)) :
    ℕ → Except Err (List (List ℚ))
  | 0 => .ok (zeroRows st)
  | n+1 =>
    match centLoop g prim st n with
    | .error er => .error er
    | .ok acc =>
      match opt prim n, opt st n with
      | some pr, some sr => .ok (acc.set n (g pr sr))
      | _, _ => .error .indexError

/-- `get_centroid_values(p, velocity_extrapolation)` (lines 170-232):
vertex-index columns, unconditional averaging of `x`, `y`, `stage`, `elev`,
then either velocity averaging with momentum reconstruction
(`velocity_extrapolation` true, lines 197-211) or momentum averaging with
velocity derivation (false, lines 213-225). -/
def get_centroid_values (p : Output) (velocity_extrapolation : Bool) :
    Except Err CentOut :=
  let vols0 := p.vols.map (fun v => v.1)
  let vols1 := p.vols.map (fun v => v.2.1)
  let vols2 := p.vols.map (fun v => v.2.2)
  match centField1 p.x vols0 vols1 vols2 with
  | .error er => .error er
  | .ok x_cent =>
    match centField1 p.y vols0 vols1 vols2 with
    | .error er => .error er
    | .ok y_cent =>
      match centField2 p.stage vols0 vols1 vols2 with
      | .error er => .error er
      | .ok stage_cent =>
        match centField1 p.elev vols0 vols1 vols2 with
        | .error er => .error er
        | .ok elev_cent =>
          if velocity_extrapolation then
            match centField2 p.xvel vols0 vols1 vols2 with
            | .error er => .error er
            | .ok xvel_cent =>
              match centField2 p.yvel vols0 vols1 vols2 with
              | .error er => .error er
              | .ok yvel_cent =>
                match centLoop (fun v s => momVals p.minimum_allowed_height v s elev_cent)
                    xvel_cent stage_cent p.time.length with
                | .error er => .error er
                | .ok xmom_cent =>
                  match centLoop (fun v s => momVals p.minimum_allowed_height v s elev_cent)
                      yvel_cent stage_cent p.time.length with
                  | .error er => .error er
                  | .ok ymom_cent =>
                    .ok ⟨p.time, x_cent, y_cent, stage_cent, xmom_cent,
                         ymom_cent, elev_cent, xvel_cent, yvel_cent⟩
          else
            match centField2 p.xmom vols0 vols1 vols2 with
            | .error er => .error er
            | .ok xmom_cent =>
              match centField2 p.ymom vols0 vols1 vols2 with
              | .error er => .error er
              | .ok ymom_cent =>
                match centLoop (fun m s => velVals p.minimum_allowed_height m s elev_cent)
                    xmom_cent stage_cent p.time.length with
                | .error er => .error er
                | .ok xvel_cent =>
                  match centLoop (fun m s => velVals p.minimum_allowed_height m s elev_cent)
                      ymom_cent stage_cent p.time.length with
                  | .error er => .error er
                  | .ok yvel_cent =>
                    .ok ⟨p.time, x_cent, y_cent, stage_cent, xmom_cent,
                         ymom_cent, elev_cent, xvel_cent, yvel_cent⟩

/- ### Lemmas about the centroid helpers -/

lemma avg3_length (a b c : List ℚ) :
    (avg3 a b c).length = min a.length (min b.length c.length) := by
  induction a generalizing b c with
  | nil => simp [avg3]
  | cons qa as ih =>
    cases b with
    | nil => simp [avg3]
    | cons qb bs =>
      cases c with
      | nil => simp [avg3]
      | cons qc cs =>
        simp only [avg3, List.length_cons, ih bs cs]
        omega

lemma avg3_nth (a b c : List ℚ) (k : ℕ)
    (ha : k < a.length) (hb : k < b.length) (hc : k < c.length) :
    nth (avg3 a b c) k = (nth a k + nth b k + nth c k) / 3 := by
  induction a generalizing b c k with
  | nil => simp at ha
  | cons qa as ih =>
    cases b with
    | nil => simp at hb
    | cons qb bs =>
      cases c with
      | nil => simp at hc
      | cons qc cs =>
        cases k with
        | zero => simp [avg3, nth]
        | succ j =>
          simpa [avg3, nth] using
            ih bs cs j (by simpa using ha) (by simpa using hb)
              (by simpa using hc)

lemma nth_map_of_opt (idx : List ℕ) (f : ℕ → ℚ) (k v : ℕ)
    (h : opt idx k = some v) : nth (idx.map f) k = f v := by
  induction idx generalizing k with
  | nil => simp [opt] at h
  | cons a as ih =>
    cases k with
    | zero => simpa [opt, nth] using congrArg (Option.map f) h
    | succ m => exact ih m h

lemma fancyIdx_ok (xs : List ℚ) (idx : List ℕ) (v : List ℚ)
    (hok : fancyIdx xs idx = .ok v) :
    v = idx.map (fun w => nth xs w) := by
  unfold fancyIdx at hok
  split at hok
  · injection hok with hp
    exact hp.symm
  · exact absurd hok (by simp)

lemma centField1_ok (xs : List ℚ) (v0 v1 v2 : List ℕ) (v : List ℚ)
    (hok : centField1 xs v0 v1 v2 = .ok v) :
    v = avg3 (v0.map (fun w => nth xs w)) (v1.map (fun w => nth xs w))
      (v2.map (fun w => nth xs w)) := by
  unfold centField1 at hok
  cases h0 : fancyIdx xs v0 with
  | error er => simp only [h0] at hok; exact absurd hok (by simp)
  | ok a =>
    cases h1 : fancyIdx xs v1 with
    | error er => simp only [h0, h1] at hok; exact absurd hok (by simp)
    | ok b =>
      cases h2 : fancyIdx xs v2 with
      | error er => simp only [h0, h1, h2] at hok; exact absurd hok (by simp)
      | ok c =>
        simp only [h0, h1, h2] at hok
        injection hok with hp
        rw [← hp, fancyIdx_ok xs v0 a h0, fancyIdx_ok xs v1 b h1,
          fancyIdx_ok xs v2 c h2]

lemma centField1_ok_length (xs : List ℚ) (v0 v1 v2 : List ℕ) (v : List ℚ)
    (hok : centField1 xs v0 v1 v2 = .ok v) :
    v.length = min v0.length (min v1.length v2.length) := by
  rw [centField1_ok xs v0 v1 v2 v hok, avg3_length]
  simp

lemma mapExcept_ok {α β : Type} (f : α → Except Err β) (xs : List α)
    (ys : List β) (hok : mapExcept f xs = .ok ys) :
    ys.length = xs.length ∧
    (∀ t x, opt xs t = some x → ∃ y, opt ys t = some y ∧ f x = .ok y) ∧
    (∀ t y, opt ys t = some y → ∃ x, opt xs t = some x ∧ f x = .ok y) := by
  induction xs generalizing ys with
  | nil =>
    simp only [mapExcept] at hok
    obtain rfl : ys = [] := by injection hok with hp; exact hp.symm
    exact ⟨rfl, by intro t x hx; simp [opt] at hx,
      by intro t y hy; simp [opt] at hy⟩
  | cons a as ih =>
    simp only [mapExcept] at hok
    cases hfa : f a with
    | error er => simp only [hfa] at hok; exact absurd hok (by simp)
    | ok b =>
      simp only [hfa] at hok
      cases hrec : mapExcept f as with
      | error er => simp only [hrec] at hok; exact absurd hok (by simp)
      | ok bs =>
        simp only [hrec] at hok
        obtain rfl : ys = b :: bs := by injection hok with hp; exact hp.symm
        obtain ⟨hlen, hfwd, hbwd⟩ := ih bs hrec
        refine ⟨by simp [hlen], ?_, ?_⟩
        · intro t x hx
          cases t with
          | zero =>
            refine ⟨b, rfl, ?_⟩
            obtain rfl : a = x := by simpa [opt] using hx
            exact hfa
          | succ m => exact hfwd m x hx
        · intro t y hy
          cases t with
          | zero =>
            refine ⟨a, rfl, ?_⟩
            obtain rfl : b = y := by simpa [opt] using hy
            exact hfa
          | succ m => exact hbwd m y hy

lemma opt_set_self {α : Type} (xs : List α) (n : ℕ) (a : α)
    (h : n < xs.length) : opt (xs.set n a) n = some a := by
  induction xs generalizing n with
  | nil => simp at h
  | cons q qs ih =>
    cases n with
    | zero => rfl
    | succ m => exact ih m (by simpa using h)

lemma opt_set_ne {α : Type} (xs : List α) (n m : ℕ) (a : α)
    (h : m ≠ n) : opt (xs.set n a) m = opt xs m := by
  induction xs generalizing n m with
  | nil => simp
  | cons q qs ih =>
    cases n with
    | zero =>
      cases m with
      | zero => exact absurd rfl h
      | succ j => rfl
    | succ k =>
      cases m with
      | zero => rfl
      | succ j => exact ih k j (by omega)

lemma zeroRows_length (xss : List (List ℚ)) :
    (zeroRows xss).length = xss.length := by
  simp [zeroRows]

lemma centLoop_ok (g : List ℚ → List ℚ → List ℚ) (prim st : List (List ℚ))
    (n : ℕ) (out : List (List ℚ)) (hok : centLoop g prim st n = .ok out) :
    out.length = st.length ∧
    ∀ t, t < n → ∃ pr sr, opt prim t = some pr ∧ opt st t = some sr ∧
      opt out t = some (g pr sr) := by
  induction n generalizing out with
  | zero =>
    simp only [centLoop] at hok
    obtain rfl : out = zeroRows st := by injection hok with hp; exact hp.symm
    exact ⟨zeroRows_length st, by intro t ht; simp at ht⟩
  | succ n ih =>
    simp only [centLoop] at hok
    cases hrec : centLoop g prim st n with
    | error er => simp only [hrec] at hok; exact absurd hok (by simp)
    | ok acc =>
      simp only [hrec] at hok
      obtain ⟨hlen, hrows⟩ := ih acc hrec
      cases hp : opt prim n with
      | none => simp only [hp] at hok; exact absurd hok (by simp)
      | some pr =>
        cases hs : opt st n with
        | none => simp only [hp, hs] at hok; exact absurd hok (by simp)
        | some sr =>
          simp only [hp, hs] at hok
          obtain rfl : out = acc.set n (g pr sr) := by
            injection hok with hq; exact hq.symm
          have hnlt : n < acc.length := by
            rw [hlen]; exact opt_some_lt st n sr hs
          refine ⟨by simp [hlen], ?_⟩
          intro t ht
          by_cases htn : t = n
          · subst htn
            exact ⟨pr, sr, hp, hs, opt_set_self acc t (g pr sr) hnlt⟩
          · obtain ⟨pr2, sr2, hp2, hs2, ho2⟩ := hrows t (by omega)
            exact ⟨pr2, sr2, hp2, hs2, by rw [opt_set_ne acc n t _ htn]; exact ho2⟩

/-- Unconditional elementwise value of `velVals` rows of matching lengths:
outside the common length both sides are zero. -/
lemma velVals_nth_eq (h : ℚ) (m s e : List ℚ) (i : ℕ)
    (h1 : s.length = e.length) (h2 : m.length = s.length) :
    nth (velVals h m s e) i =
      nth m i / (nth s i - nth e i + eps) *
        (if nth e i + h < nth s i then 1 else 0) := by
  by_cases hi : i < m.length
  · exact velVals_nth h m s e i h1 h2
  · push_neg at hi
    rw [nth_ge _ _ (by rw [velVals_length h m s e h1 h2]; exact hi)]
    rw [nth_ge m i hi, zero_div, zero_mul]

/-- A successful `get_centroid_values` (either derivation path) carries the
time axis unchanged, and its `x`, `y`, `stage` and `elev` fields are the
vertex averages over the three connectivity columns. -/
lemma get_centroid_ok (p : Output) (b : Bool) (c : CentOut)
    (hok : get_centroid_values p b = .ok c) :
    c.time = p.time ∧
    centField1 p.x (p.vols.map (fun v => v.1)) (p.vols.map (fun v => v.2.1))
      (p.vols.map (fun v => v.2.2)) = .ok c.x ∧
    centField1 p.y (p.vols.map (fun v => v.1)) (p.vols.map (fun v => v.2.1))
      (p.vols.map (fun v => v.2.2)) = .ok c.y ∧
    centField2 p.stage (p.vols.map (fun v => v.1)) (p.vols.map (fun v => v.2.1))
      (p.vols.map (fun v => v.2.2)) = .ok c.stage ∧
    centField1 p.elev (p.vols.map (fun v => v.1)) (p.vols.map (fun v => v.2.1))
      (p.vols.map (fun v => v.2.2)) = .ok c.elev := by
  unfold get_centroid_values at hok
  dsimp only [] at hok
  cases hx : centField1 p.x (p.vols.map (fun v => v.1))
      (p.vols.map (fun v => v.2.1)) (p.vols.map (fun v => v.2.2)) with
  | error er => simp only [hx] at hok; exact absurd hok (by simp)
  | ok x_cent =>
  simp only [hx] at hok
  cases hy : centField1 p.y (p.vols.map (fun v => v.1))
      (p.vols.map (fun v => v.2.1)) (p.vols.map (fun v => v.2.2)) with
  | error er => simp only [hy] at hok; exact absurd hok (by simp)
  | ok y_cent =>
  simp only [hy] at hok
  cases hs : centField2 p.stage (p.vols.map (fun v => v.1))
      (p.vols.map (fun v => v.2.1)) (p.vols.map (fun v => v.2.2)) with
  | error er => simp only [hs] at hok; exact absurd hok (by simp)
  | ok stage_cent =>
  simp only [hs] at hok
  cases he : centField1 p.elev (p.vols.map (fun v => v.1))
      (p.vols.map (fun v => v.2.1)) (p.vols.map (fun v => v.2.2)) with
  | error er => simp only [he] at hok; exact absurd hok (by simp)
  | ok elev_cent =>
  simp only [he] at hok
  cases b with
  | true =>
    rw [if_pos rfl] at hok
    cases hxv : centField2 p.xvel (p.vols.map (fun v => v.1))
        (p.vols.map (fun v => v.2.1)) (p.vols.map (fun v => v.2.2)) with
    | error er => simp only [hxv] at hok; exact absurd hok (by simp)
    | ok xvel_cent =>
    simp only [hxv] at hok
    cases hyv : centField2 p.yvel (p.vols.map (fun v => v.1))
        (p.vols.map (fun v => v.2.1)) (p.vols.map (fun v => v.2.2)) with
    | error er => simp only [hyv] at hok; exact absurd hok (by simp)
    | ok yvel_cent =>
    simp only [hyv] at hok
    cases hxm : centLoop (fun v s => momVals p.minimum_allowed_height v s elev_cent)
        xvel_cent stage_cent p.time.length with
    | error er => simp only [hxm] at hok; exact absurd hok (by simp)
    | ok xmom_cent =>
    simp only [hxm] at hok
    cases hym : centLoop (fun v s => momVals p.minimum_allowed_height v s elev_cent)
        yvel_cent stage_cent p.time.length with
    | error er => simp only [hym] at hok; exact absurd hok (by simp)
    | ok ymom_cent =>
    simp only [hym] at hok
    obtain rfl : (⟨p.time, x_cent, y_cent, stage_cent, xmom_cent, ymom_cent,
        elev_cent, xvel_cent, yvel_cent⟩ : CentOut) = c := by injection hok
    exact ⟨rfl, rfl, rfl, rfl, rfl⟩
  | false =>
    rw [if_neg (by simp)] at hok
    cases hxm : centField2 p.xmom (p.vols.map (fun v => v.1))
        (p.vols.map (fun v => v.2.1)) (p.vols.map (fun v => v.2.2)) with
    | error er => simp only [hxm] at hok; exact absurd hok (by simp)
    | ok xmom_cent =>
    simp only [hxm] at hok
    cases hym : centField2 p.ymom (p.vols.map (fun v => v.1))
        (p.vols.map (fun v => v.2.1)) (p.vols.map (fun v => v.2.2)) with
    | error er => simp only [hym] at hok; exact absurd hok (by simp)
    | ok ymom_cent =>
    simp only [hym] at hok
    cases hxv : centLoop (fun m s => velVals p.minimum_allowed_height m s elev_cent)
        xmom_cent stage_cent p.time.length with
    | error er => simp only [hxv] at hok; exact absurd hok (by simp)
    | ok xvel_cent =>
    simp only [hxv] at hok
    cases hyv : centLoop (fun m s => velVals p.minimum_allowed_height m s elev_cent)
        ymom_cent stage_cent p.time.length with
    | error er => simp only [hyv] at hok; exact absurd hok (by simp)
    | ok yvel_cent =>
    simp only [hyv] at hok
    obtain rfl : (⟨p.time, x_cent, y_cent, stage_cent, xmom_cent, ymom_cent,
        elev_cent, xvel_cent, yvel_cent⟩ : CentOut) = c := by injection hok
    exact ⟨rfl, rfl, rfl, rfl, rfl⟩

/-- In the `velocity_extrapolation=False` branch a successful
`get_centroid_values` derives the centroid momenta by vertex averaging and
the centroid velocities by the assignment loop over the centroid momentum,
stage and elevation with the output's own threshold. -/
lemma get_centroid_false_ok (p : Output) (c : CentOut)
    (hok : get_centroid_values p false = .ok c) :
    centField2 p.xmom (p.vols.map (fun v => v.1)) (p.vols.map (fun v => v.2.1))
      (p.vols.map (fun v => v.2.2)) = .ok c.xmom ∧
    centField2 p.ymom (p.vols.map (fun v => v.1)) (p.vols.map (fun v => v.2.1))
      (p.vols.map (fun v => v.2.2)) = .ok c.ymom ∧
    centLoop (fun m s => velVals p.minimum_allowed_height m s c.elev)
      c.xmom c.stage p.time.length = .ok c.xvel ∧
    centLoop (fun m s => velVals p.minimum_allowed_height m s c.elev)
      c.ymom c.stage p.time.length = .ok c.yvel := by
  unfold get_centroid_values at hok
  dsimp only [] at hok
  cases hx : centField1 p.x (p.vols.map (fun v => v.1))
      (p.vols.map (fun v => v.2.1)) (p.vols.map (fun v => v.2.2)) with
  | error er => simp only [hx] at hok; exact absurd hok (by simp)
  | ok x_cent =>
  simp only [hx] at hok
  cases hy : centField1 p.y (p.vols.map (fun v => v.1))
      (p.vols.map (fun v => v.2.1)) (p.vols.map (fun v => v.2.2)) with
  | error er => simp only [hy] at hok; exact absurd hok (by simp)
  | ok y_cent =>
  simp only [hy] at hok
  cases hs : centField2 p.stage (p.vols.map (fun v => v.1))
      (p.vols.map (fun v => v.2.1)) (p.vols.map (fun v => v.2.2)) with
  | error er => simp only [hs] at hok; exact absurd hok (by simp)
  | ok stage_cent =>
  simp only [hs] at hok
  cases he : centField1 p.elev (p.vols.map (fun v => v.1))
      (p.vols.map (fun v => v.2.1)) (p.vols.map (fun v => v.2.2)) with
  | error er => simp only [he] at hok; exact absurd hok (by simp)
  | ok elev_cent =>
  simp only [he] at hok
  rw [if_neg (by simp)] at hok
  cases hxm : centField2 p.xmom (p.vols.map (fun v => v.1))
      (p.vols.map (fun v => v.2.1)) (p.vols.map (fun v => v.2.2)) with
  | error er => simp only [hxm] at hok; exact absurd hok (by simp)
  | ok xmom_cent =>
  simp only [hxm] at hok
  cases hym : centField2 p.ymom (p.vols.map (fun v => v.1))
      (p.vols.map (fun v => v.2.1)) (p.vols.map (fun v => v.2.2)) with
  | error er => simp only [hym] at hok; exact absurd hok (by simp)
  | ok ymom_cent =>
  simp only [hym] at hok
  cases hxv : centLoop (fun m s => velVals p.minimum_allowed_height m s elev_cent)
      xmom_cent stage_cent p.time.length with
  | error er => simp only [hxv] at hok; exact absurd hok (by simp)
  | ok xvel_cent =>
  simp only [hxv] at hok
  cases hyv : centLoop (fun m s => velVals p.minimum_allowed_height m s elev_cent)
      ymom_cent stage_cent p.time.length with
  | error er => simp only [hyv] at hok; exact absurd hok (by simp)
  | ok yvel_cent =>
  simp only [hyv] at hok
  obtain rfl : (⟨p.time, x_cent, y_cent, stage_cent, xmom_cent, ymom_cent,
      elev_cent, xvel_cent, yvel_cent⟩ : CentOut) = c := by injection hok
  exact ⟨rfl, rfl, hxv, hyv⟩

/- ### Claim C7: internal consistency of the momentum-averaging path -/

/-- Claim C7: with `velocity_extrapolation = false`, the centroid velocity
reported by `get_centroid_values` equals, at every time step and triangle,
the velocity-derivation formula applied to its own derived centroid momentum,
centroid stage and centroid elevation with `p`'s `minimum_allowed_height`. -/
theorem centroid_velocity_consistent (p : Output) (c : CentOut) (t i : ℕ)
    (hok : get_centroid_values p false = .ok c) (ht : t < p.time.length) :
    val2 c.xvel t i = val2 c.xmom t i /
        (val2 c.stage t i - nth c.elev i + eps) *
      (if nth c.elev i + p.minimum_allowed_height < val2 c.stage t i then 1
       else 0) ∧
    val2 c.yvel t i = val2 c.ymom t i /
        (val2 c.stage t i - nth c.elev i + eps) *
      (if nth c.elev i + p.minimum_allowed_height < val2 c.stage t i then 1
       else 0) := by
  obtain ⟨-, -, -, hsc, hec⟩ := get_centroid_ok p false c hok
  obtain ⟨hxm, hym, hxl, hyl⟩ := get_centroid_false_ok p c hok
  have hMel : c.elev.length = p.vols.length := by
    have h := centField1_ok_length p.elev _ _ _ c.elev hec
    simpa using h
  have rowlen : ∀ (src out : List (List ℚ)) (r : List ℚ) (t2 : ℕ),
      centField2 src (p.vols.map (fun v => v.1)) (p.vols.map (fun v => v.2.1))
        (p.vols.map (fun v => v.2.2)) = .ok out →
      opt out t2 = some r → r.length = p.vols.length := by
    intro src out r t2 hcf hopt
    obtain ⟨-, -, hbwd⟩ := mapExcept_ok _ src out hcf
    obtain ⟨w, -, hfw⟩ := hbwd t2 r hopt
    have h := centField1_ok_length w _ _ _ r hfw
    simpa using h
  have step : ∀ (momc vout src : List (List ℚ)),
      centField2 src (p.vols.map (fun v => v.1)) (p.vols.map (fun v => v.2.1))
        (p.vols.map (fun v => v.2.2)) = .ok momc →
      centLoop (fun m s => velVals p.minimum_allowed_height m s c.elev)
        momc c.stage p.time.length = .ok vout →
      val2 vout t i = val2 momc t i /
          (val2 c.stage t i - nth c.elev i + eps) *
        (if nth c.elev i + p.minimum_allowed_height < val2 c.stage t i then 1
         else 0) := by
    intro momc vout src hcf hloop
    obtain ⟨-, hrows⟩ := centLoop_ok _ momc c.stage _ vout hloop
    obtain ⟨pr, sr, hpr, hsr, hov⟩ := hrows t ht
    have hprlen : pr.length = p.vols.length := rowlen src momc pr t hcf hpr
    have hsrlen : sr.length = p.vols.length := rowlen p.stage c.stage sr t hsc hsr
    unfold val2
    rw [rowOf_of_opt _ _ _ hov, rowOf_of_opt _ _ _ hpr, rowOf_of_opt _ _ _ hsr]
    exact velVals_nth_eq p.minimum_allowed_height pr sr c.elev i
      (by rw [hsrlen, hMel]) (by rw [hprlen, hsrlen])
  exact ⟨step c.xmom c.xvel p.xmom hxm hxl, step c.ymom c.yvel p.ymom hym hyl⟩

/- ### Claim C8: unconditional vertex averaging of x, y, elev, stage -/

/-- Claim C8: for every triangle with vertex indices `(v0, v1, v2)`, the
centroid values of `x`, `y`, `elev` and (at every time step) `stage`
produced by `get_centroid_values` are `(F[v0]+F[v1]+F[v2])/3`, regardless of
the `velocity_extrapolation` flag. -/
theorem centroid_mean_of_vertices (p : Output) (b : Bool) (c : CentOut)
    (k v0 v1 v2 : ℕ) (hok : get_centroid_values p b = .ok c)
    (hk : opt p.vols k = some (v0, v1, v2)) :
    nth c.x k = (nth p.x v0 + nth p.x v1 + nth p.x v2) / 3 ∧
    nth c.y k = (nth p.y v0 + nth p.y v1 + nth p.y v2) / 3 ∧
    nth c.elev k = (nth p.elev v0 + nth p.elev v1 + nth p.elev v2) / 3 ∧
    ∀ t, t < p.stage.length →
      val2 c.stage t k =
        (val2 p.stage t v0 + val2 p.stage t v1 + val2 p.stage t v2) / 3 := by
  obtain ⟨-, hxc, hyc, hsc, hec⟩ := get_centroid_ok p b c hok
  have hkM : k < p.vols.length := opt_some_lt _ _ _ hk
  have h0 : opt (p.vols.map (fun v => v.1)) k = some v0 := by
    rw [opt_map, hk]; rfl
  have h1 : opt (p.vols.map (fun v => v.2.1)) k = some v1 := by
    rw [opt_map, hk]; rfl
  have h2 : opt (p.vols.map (fun v => v.2.2)) k = some v2 := by
    rw [opt_map, hk]; rfl
  have mean1 : ∀ (xs res : List ℚ),
      centField1 xs (p.vols.map (fun v => v.1)) (p.vols.map (fun v => v.2.1))
        (p.vols.map (fun v => v.2.2)) = .ok res →
      nth res k = (nth xs v0 + nth xs v1 + nth xs v2) / 3 := by
    intro xs res hres
    rw [centField1_ok xs _ _ _ res hres,
      avg3_nth _ _ _ k (by simpa using hkM) (by simpa using hkM)
        (by simpa using hkM),
      nth_map_of_opt _ _ _ _ h0, nth_map_of_opt _ _ _ _ h1,
      nth_map_of_opt _ _ _ _ h2]
  refine ⟨mean1 p.x c.x hxc, mean1 p.y c.y hyc, mean1 p.elev c.elev hec, ?_⟩
  intro t ht
  obtain ⟨r, hr⟩ := opt_lt p.stage t ht
  obtain ⟨-, hfwd, -⟩ := mapExcept_ok _ p.stage c.stage hsc
  obtain ⟨crow, hcrow, hcf⟩ := hfwd t r hr
  unfold val2
  rw [rowOf_of_opt _ _ _ hcrow, rowOf_of_opt _ _ _ hr]
  exact mean1 r crow hcf

/-- The specification's example triangle: vertices `(0,0)`, `(3,0)`, `(0,3)`,
flat bed, still water. -/
def pTri : Output :=
  ⟨[0, 3, 0], [0, 0, 3], [0], [(0, 1, 2)], [[0, 0, 0]], [0, 0, 0],
   [[0, 0, 0]], [[0, 0, 0]], [[0, 0, 0]], [[0, 0, 0]], 1/100⟩

/-- The centroid of `pTri`: `(1, 1)`, all fields zero. -/
def cTri : CentOut :=
  ⟨[0], [1], [1], [[0]], [[0]], [[0]], [0], [[0]], [[0]]⟩

/-- Witness for claim C8 at the specification's example triangle:
the centroid of `(0,0),(3,0),(0,3)` is `(1,1)`. -/
theorem centroid_mean_of_vertices_wit :
    nth cTri.x 0 = (nth pTri.x 0 + nth pTri.x 1 + nth pTri.x 2) / 3 ∧
    nth cTri.y 0 = (nth pTri.y 0 + nth pTri.y 1 + nth pTri.y 2) / 3 ∧
    nth cTri.elev 0 = (nth pTri.elev 0 + nth pTri.elev 1 + nth pTri.elev 2) / 3 ∧
    (∀ t, t < pTri.stage.length →
      val2 cTri.stage t 0 =
        (val2 pTri.stage t 0 + val2 pTri.stage t 1 + val2 pTri.stage t 2) / 3) ∧
    cTri.x = [1] ∧ cTri.y = [1] :=
  have h := centroid_mean_of_vertices pTri false cTri 0 0 1 2
    (by norm_num [get_centroid_values, centField1, centField2, mapExcept,
      fancyIdx, avg3, centLoop, zeroRows, velVals, opt, nth, eps, pTri, cTri])
    rfl
  ⟨h.1, h.2.1, h.2.2.1, h.2.2.2, rfl, rfl⟩

/-- A wet triangle for the consistency witness: centroid stage 3, centroid
x-momentum 6, threshold `1/100`. -/
def pVel : Output :=
  ⟨[0, 3, 0], [0, 0, 3], [0], [(0, 1, 2)], [[3, 3, 3]], [0, 0, 0],
   [[6, 6, 6]], [[0, 0, 0]], [[0, 0, 0]], [[0, 0, 0]], 1/100⟩

/-- Centroid aggregate of `pVel` in the momentum-averaging path: the
centroid x-velocity is `6/(3 + 1e-6)`. -/
def cVel : CentOut :=
  ⟨[0], [1], [1], [[3]], [[6]], [[0]], [0], [[6000000/3000001]], [[0]]⟩

/-- Witness for claim C7 at the concrete wet triangle `pVel`. -/
theorem centroid_velocity_consistent_wit :
    val2 cVel.xvel 0 0 = val2 cVel.xmom 0 0 /
        (val2 cVel.stage 0 0 - nth cVel.elev 0 + eps) *
      (if nth cVel.elev 0 + pVel.minimum_allowed_height < val2 cVel.stage 0 0
       then 1 else 0) ∧
    val2 cVel.yvel 0 0 = val2 cVel.ymom 0 0 /
        (val2 cVel.stage 0 0 - nth cVel.elev 0 + eps) *
      (if nth cVel.elev 0 + pVel.minimum_allowed_height < val2 cVel.stage 0 0
       then 1 else 0) :=
  centroid_velocity_consistent pVel cVel 0 0
    (by norm_num [get_centroid_values, centField1, centField2, mapExcept,
      fancyIdx, avg3, centLoop, zeroRows, velVals, opt, nth, eps, pVel, cVel])
    (by norm_num [pVel])
